import Mathlib

/-!
Verification of the `crawshaw` job-queue storage layer
(`crawshaw/queue.go` of repository `restinpieces-sqlite-crawshaw`).

The SQLite-backed job table is embedded shallowly: a store is the list of
rows of the `job_queue` table (in rowid order, as SQLite keeps them) plus
the next autoincrement id.  Timestamps are kept as the TEXT values the code
stores (`strftime`-style `YYYY-MM-DDTHH:MM:SSZ` strings); SQLite compares
TEXT values bytewise, which `lexLe` models.  Each Go method of the queue
API (`InsertJob`, `Claim`, `MarkCompleted`, `MarkFailed`,
`MarkRecurrentCompleted`) becomes a function on stores, translated
statement by statement from the Go source and the SQL it executes.
-/

namespace Crawshaw

/-- Status values of a job row, the four SQL string literals used by the
code (`pending`, `processing`, `completed`, `failed`). -/
inductive Status where
  | pending
  | processing
  | completed
  | failed
deriving DecidableEq, Repr

/-- Go errors as the queue code produces them: a raw error from the sqlite
driver, the sentinel `db.ErrConstraintUnique` of the external
`restinpieces/db` package, time / duration parse failures from
`db.TimeParse` / `time.ParseDuration`, and `fmt.Errorf` wrapping with
`%w`. -/
inductive GoError where
  | sqlite (code : String)
  | errConstraintUnique
  | badTime (s : String)
  | badDuration (s : String)
  | wrap (msg : String) (inner : GoError)
deriving DecidableEq, Repr

/-- One row of the `job_queue` table.  Column values are held at the SQL
level: TEXT columns are strings (the empty string standing for "unset", as
the schema uses), INTEGER columns are integers, `recurrent` is stored as a
boolean. -/
structure JobRow where
  id : Nat
  job_type : String
  payload : String
  payload_extra : String
  status : Status
  attempts : Int
  max_attempts : Int
  created_at : String
  updated_at : String
  scheduled_for : String
  locked_by : String
  locked_at : String
  completed_at : String
  last_error : String
  recurrent : Bool
  interval : String
deriving DecidableEq, Repr

/-- The Go `db.Job` struct (external `restinpieces/db` package) as used by
this code: `time.Time` fields are modelled by their formatted string, the
zero time being the empty string (`db.TimeFormat` / `db.TimeParse` are then
the identity on valid strings), and `time.Duration` by its canonical
`Duration.String()` form. -/
structure Job where
  id : Nat
  jobType : String
  payload : String
  payloadExtra : String
  status : Status
  attempts : Int
  maxAttempts : Int
  createdAt : String
  updatedAt : String
  scheduledFor : String
  lockedBy : String
  lockedAt : String
  completedAt : String
  lastError : String
  recurrent : Bool
  interval : String
deriving DecidableEq, Repr

/-- The `job_queue` table: its rows in rowid order together with the next
autoincrement id SQLite will assign. -/
structure Store where
  rows : List JobRow
  nextId : Nat
deriving DecidableEq, Repr

/-- Bytewise (memcmp-style) `≤` on strings, the comparison SQLite applies
to TEXT values in `scheduled_for <= strftime(...)`. -/
def lexLe : List Char → List Char → Bool
  | [], _ => true
  | _ :: _, [] => false
  | a :: as, b :: bs =>
    if a < b then true
    else if a = b then lexLe as bs
    else false

/-- TEXT comparison `a <= b` as SQLite evaluates it. -/
def strLe (a b : String) : Bool := lexLe a.data b.data

/-- Modelled from the spec: timestamps are stored as UTC strings in the
fixed second-resolution `Z`-suffixed `strftime` format
`%Y-%m-%dT%H:%M:%SZ`; this checks that shape (the format accepted by the
external `db.TimeParse`). -/
def isTimeString (s : String) : Bool :=
  match s.data with
  | [y1, y2, y3, y4, d1, m1, m2, d2, a1, a2, t, h1, h2, c1, n1, n2, c2, s1, s2, z] =>
    y1.isDigit && y2.isDigit && y3.isDigit && y4.isDigit &&
    d1 = '-' && m1.isDigit && m2.isDigit && d2 = '-' &&
    a1.isDigit && a2.isDigit && t = 'T' &&
    h1.isDigit && h2.isDigit && c1 = ':' &&
    n1.isDigit && n2.isDigit && c2 = ':' &&
    s1.isDigit && s2.isDigit && z = 'Z'
  | _ => false

/-- Modelled from the spec: `interval` is stored as a human-readable Go
duration string (the canonical `time.Duration.String()` form, e.g.
`24h0m0s`); this checks the shape `time.ParseDuration` accepts here. -/
def isDurationString (s : String) : Bool :=
  (match s.data with
   | c :: _ => c.isDigit
   | [] => false) &&
  s.data.all (fun c => c.isDigit || c = 'h' || c = 'm' || c = 's' || c = '.')

/-- The external `db.TimeParse`: succeeds exactly on well-formed timestamp
strings; in the string model of `time.Time` the parsed value is the string
itself. -/
def timeParse (s : String) : Except GoError String :=
  if isTimeString s then .ok s else .error (.badTime s)

/-- The external `time.ParseDuration` on the strings this code stores. -/
def durationParse (s : String) : Except GoError String :=
  if isDurationString s then .ok s else .error (.badDuration s)

/-- The row-scan callback of `Claim` (queue.go:106-168): parse the
timestamp and duration columns (empty text meaning the zero value, skipped
without parsing) and assemble a `db.Job` from the returned columns.  A
parse failure aborts with the wrapped error the Go code produces. -/
def rowToJob (r : JobRow) : Except GoError Job := do
  let createdAt ←
    match timeParse r.created_at with
    | .error e => .error (.wrap "error parsing created_at time" e)
    | .ok v => .ok v
  let updatedAt ←
    match timeParse r.updated_at with
    | .error e => .error (.wrap "error parsing updated_at time" e)
    | .ok v => .ok v
  let scheduledFor ←
    if r.scheduled_for = "" then .ok "" else
      match timeParse r.scheduled_for with
      | .error e => .error (.wrap "error parsing scheduled_for time" e)
      | .ok v => .ok v
  let lockedAt ←
    if r.locked_at = "" then .ok "" else
      match timeParse r.locked_at with
      | .error e => .error (.wrap "error parsing locked_at time" e)
      | .ok v => .ok v
  let completedAt ←
    if r.completed_at = "" then .ok "" else
      match timeParse r.completed_at with
      | .error e => .error (.wrap "error parsing completed_at time" e)
      | .ok v => .ok v
  let interval ←
    if r.interval = "" then .ok "" else
      match durationParse r.interval with
      | .error e => .error (.wrap "error parsing interval duration" e)
      | .ok v => .ok v
  .ok {
    id := r.id
    jobType := r.job_type
    payload := r.payload
    payloadExtra := r.payload_extra
    status := r.status
    attempts := r.attempts
    maxAttempts := r.max_attempts
    createdAt := createdAt
    updatedAt := updatedAt
    scheduledFor := scheduledFor
    lockedBy := r.locked_by
    lockedAt := lockedAt
    completedAt := completedAt
    lastError := r.last_error
    recurrent := r.recurrent
    interval := interval
  }

/-- The direct column-by-column reading of a row as a `db.Job`; on rows
whose stored text is well formed, `rowToJob` returns exactly this. -/
def jobOfRow (r : JobRow) : Job :=
  { id := r.id
    jobType := r.job_type
    payload := r.payload
    payloadExtra := r.payload_extra
    status := r.status
    attempts := r.attempts
    maxAttempts := r.max_attempts
    createdAt := r.created_at
    updatedAt := r.updated_at
    scheduledFor := r.scheduled_for
    lockedBy := r.locked_by
    lockedAt := r.locked_at
    completedAt := r.completed_at
    lastError := r.last_error
    recurrent := r.recurrent
    interval := r.interval }

/-- Eligibility predicate of the claim subquery (queue.go:97-98):
`status IN ('pending', 'failed') AND scheduled_for <= strftime(..., 'now')`,
the comparison being SQLite TEXT comparison against the current timestamp
string. -/
def eligibleRow (now : String) (r : JobRow) : Bool :=
  (r.status = Status.pending || r.status = Status.failed) && strLe r.scheduled_for now

/-- `SELECT ... ORDER BY id ASC`: insertion sort of rows by ascending id.
On a store whose rows are already in ascending rowid order this is the
identity. -/
def insertById (r : JobRow) : List JobRow → List JobRow
  | [] => [r]
  | x :: xs => if r.id ≤ x.id then r :: x :: xs else x :: insertById r xs

/-- Sort rows ascending by id. -/
def sortById : List JobRow → List JobRow
  | [] => []
  | x :: xs => insertById x (sortById xs)

/-- `LIMIT ?` with a Go `int` bound: SQLite places no upper bound on the
number of returned rows when the LIMIT expression is negative. -/
def takeLimit (limit : Int) (l : List JobRow) : List JobRow :=
  if limit < 0 then l else l.take limit.toNat

/-- The SET clause of the claim statement (queue.go:90-93): status becomes
`processing`, `locked_at` is stamped with the current time, `attempts` is
incremented.  No other column is written. -/
def claimUpdate (now : String) (r : JobRow) : JobRow :=
  { r with status := .processing, locked_at := now, attempts := r.attempts + 1 }

/-- The rows selected by the claim subquery (queue.go:94-101): eligible
rows, ascending by id, capped by the limit. -/
def claimSelected (limit : Int) (now : String) (st : Store) : List JobRow :=
  takeLimit limit (sortById (st.rows.filter (eligibleRow now)))

/-- The full claim UPDATE statement: rows whose id is in the selected id
set are updated, all others kept; the statement RETURNING yields the
post-mutation snapshot of the selected rows (in ascending id order, the
order the update visits them). -/
def claimStatement (limit : Int) (now : String) (st : Store) :
    Store × List JobRow :=
  let selected := claimSelected limit now st
  let selIds := selected.map JobRow.id
  ({ st with
      rows := st.rows.map fun r => if selIds.contains r.id then claimUpdate now r else r },
   selected.map (claimUpdate now))

/-- The result-scan loop of `sqlitex.Exec` in `Claim`: run the callback on
each returned row in order, collecting the appended jobs, aborting at the
first callback error. -/
def scanRows : List JobRow → Except GoError (List Job)
  | [] => .ok []
  | r :: rs =>
    match rowToJob r with
    | .error e => .error e
    | .ok j =>
      match scanRows rs with
      | .error e => .error e
      | .ok js => .ok (j :: js)

/-- `Claim` (queue.go:85-178): run the claim statement, convert each
returned row through the scan callback (a callback failure surfaces as the
wrapped claim error, the mutation of the statement having already been
applied), and return the snapshots; no returned rows is an empty slice,
not an error. -/
def claim (limit : Int) (now : String) (st : Store) :
    Store × Except GoError (List Job) :=
  let (st', returned) := claimStatement limit now st
  match scanRows returned with
  | .error e => (st', .error (.wrap "failed to claim jobs" e))
  | .ok jobs => (st', .ok jobs)

/-- Modelled from the spec: the `job_queue` schema (not in the source
tree) assigns the monotonically increasing integer id, defaults `status`
to `pending` and the `created_at`/`updated_at` timestamps to now, leaves
the unset text columns empty, and carries a uniqueness constraint on
payload content.  This is the row the INSERT of queue.go:21-33 creates
from its eight bound columns. -/
def insertedRow (job : Job) (scheduledForStr : String) (now : String) (st : Store) : JobRow :=
  { id := st.nextId
    job_type := job.jobType
    payload := job.payload
    payload_extra := job.payloadExtra
    status := .pending
    attempts := job.attempts
    max_attempts := job.maxAttempts
    created_at := now
    updated_at := now
    scheduled_for := scheduledForStr
    locked_by := ""
    locked_at := ""
    completed_at := ""
    last_error := ""
    recurrent := job.recurrent
    interval := job.interval }

/-- The INSERT statement executed by both `InsertJob` (queue.go:21-33) and
`MarkRecurrentCompleted` (queue.go:213-225): computes the bound
`scheduled_for` text (empty for the zero time), fails with the driver
uniqueness-constraint error when a row with the same payload exists,
otherwise appends the new row. -/
def insertStatement (job : Job) (now : String) (st : Store) : Except GoError Store :=
  let scheduledForStr := if job.scheduledFor = "" then "" else job.scheduledFor
  if st.rows.any (fun r => r.payload = job.payload) then
    .error (.sqlite "SQLITE_CONSTRAINT_UNIQUE")
  else
    .ok { rows := st.rows ++ [insertedRow job scheduledForStr now st], nextId := st.nextId + 1 }

/-- `InsertJob` (queue.go:12-39): executes the INSERT and wraps any
storage failure as `queue insert failed`; there is no validation and no
error-type mapping before or after the statement. -/
def insertJob (job : Job) (now : String) (st : Store) : Except GoError Store :=
  match insertStatement job now st with
  | .error e => .error (.wrap "queue insert failed" e)
  | .ok st' => .ok st'

/-- The UPDATE of `MarkCompleted` (queue.go:45-55), also the first
statement of `MarkRecurrentCompleted` (queue.go:192-202): on the row with
the given id, set status `completed`, stamp `completed_at` and
`updated_at`, clear `locked_at` and `last_error`.  No other column is
written. -/
def completeUpdate (jobID : Nat) (now : String) (st : Store) : Store :=
  { st with
      rows := st.rows.map fun r =>
        if r.id = jobID then
          { r with status := .completed, completed_at := now, updated_at := now,
                   locked_at := "", last_error := "" }
        else r }

/-- `MarkCompleted` (queue.go:41-61): the completion UPDATE as a single
autocommitted statement. -/
def markCompleted (jobID : Nat) (now : String) (st : Store) : Store :=
  completeUpdate jobID now st

/-- `MarkFailed` (queue.go:63-83): on the row with the given id, set
status `failed`, stamp `updated_at`, clear `locked_at`, store the message
in `last_error`.  No other column is written (in particular neither
`completed_at` nor `locked_by`). -/
def markFailed (jobID : Nat) (errMsg : String) (now : String) (st : Store) : Store :=
  { st with
      rows := st.rows.map fun r =>
        if r.id = jobID then
          { r with status := .failed, updated_at := now, locked_at := "",
                   last_error := errMsg }
        else r }

/-- A SQLite connection as `MarkRecurrentCompleted` uses it: the committed
store plus, when a transaction is open, the uncommitted working state. -/
structure Conn where
  committed : Store
  tx : Option Store

/-- `BEGIN IMMEDIATE`: open a transaction on the committed state. -/
def Conn.beginTx (c : Conn) : Conn := { c with tx := some c.committed }

/-- `ROLLBACK`: discard the open transaction. -/
def Conn.rollbackTx (c : Conn) : Conn := { c with tx := none }

/-- `COMMIT`: publish the transaction state. -/
def Conn.commitTx (c : Conn) : Conn :=
  match c.tx with
  | some s => { committed := s, tx := none }
  | none => c

/-- Execute an always-succeeding statement: inside an open transaction it
acts on the transaction state, otherwise it autocommits. -/
def Conn.exec (c : Conn) (f : Store → Store) : Conn :=
  match c.tx with
  | some s => { c with tx := some (f s) }
  | none => { c with committed := f c.committed }

/-- Execute a fallible statement; on failure the connection state is
unchanged (a failed statement does not itself roll the transaction back —
the Go code issues the ROLLBACK explicitly). -/
def Conn.execE (c : Conn) (f : Store → Except GoError Store) : Except GoError Conn :=
  match c.tx with
  | some s =>
    match f s with
    | .error e => .error e
    | .ok s' => .ok { c with tx := some s' }
  | none =>
    match f c.committed with
    | .error e => .error e
    | .ok s' => .ok { c with committed := s' }

/-- `MarkRecurrentCompleted` (queue.go:180-237): BEGIN IMMEDIATE; run the
completion UPDATE for the finished job; run the successor INSERT; on
INSERT failure ROLLBACK and return the wrapped error, otherwise COMMIT.
The result is the store visible after the call together with the returned
error value. -/
def markRecurrentCompleted (completedJobID : Nat) (newJob : Job) (now : String)
    (st : Store) : Store × Except GoError Unit :=
  let c0 : Conn := { committed := st, tx := none }
  let c1 := c0.beginTx
  let c2 := c1.exec (completeUpdate completedJobID now)
  match c2.execE (insertStatement newJob now) with
  | .error e =>
    ((c2.rollbackTx).committed,
     .error (.wrap "failed to re-insert job in transaction" e))
  | .ok c3 => ((c3.commitTx).committed, .ok ())

/-- Executable strict-ascending check on a list of ids. -/
def idsSortedLt : List Nat → Bool
  | [] => true
  | [_] => true
  | a :: b :: rest => decide (a < b) && idsSortedLt (b :: rest)

/-- Well-formedness of a store, maintained by SQLite itself: rows sit in
strictly ascending rowid order and every assigned id is below the next
autoincrement id. -/
def Store.WF (st : Store) : Prop :=
  idsSortedLt (st.rows.map JobRow.id) = true ∧ ∀ r ∈ st.rows, r.id < st.nextId

instance (st : Store) : Decidable st.WF :=
  inferInstanceAs (Decidable (idsSortedLt (st.rows.map JobRow.id) = true ∧
    ∀ r ∈ st.rows, r.id < st.nextId))

end Crawshaw
namespace Crawshaw

/-- Fixture: the claim-cycle timestamp used in the concrete examples. -/
def now0 : String := "2026-01-01T00:00:00Z"

/-- Fixture: a later timestamp. -/
def nowLater : String := "2026-01-01T00:05:00Z"

/-- Fixture: a pending job row, immediately eligible. -/
def rowPending : JobRow :=
  { id := 1, job_type := "email", payload := "payload-a", payload_extra := "",
    status := .pending, attempts := 0, max_attempts := 3,
    created_at := now0, updated_at := now0, scheduled_for := "",
    locked_by := "", locked_at := "", completed_at := "", last_error := "",
    recurrent := false, interval := "0s" }

/-- Fixture: a previously failed row carrying a failure message and a
stale lock owner. -/
def rowFailed : JobRow :=
  { rowPending with
    id := 2, payload := "payload-b", status := .failed,
    attempts := 1, last_error := "smtp down", locked_by := "stale-worker" }

/-- Fixture: a two-row store. -/
def stPair : Store := { rows := [rowPending, rowFailed], nextId := 3 }

/-- Fixture: a job with empty job_type, which the spec says insert must
reject before reaching storage. -/
def jobNoType : Job :=
  { id := 0, jobType := "", payload := "payload-c", payloadExtra := "",
    status := .pending, attempts := 0, maxAttempts := 3,
    createdAt := "", updatedAt := "", scheduledFor := "", lockedBy := "",
    lockedAt := "", completedAt := "", lastError := "", recurrent := false,
    interval := "0s" }

/-- Fixture: a job whose payload duplicates the stored payload-a row. -/
def jobDupPayload : Job :=
  { jobNoType with jobType := "email", payload := "payload-a" }

/-- Fixture: a successor job for the recurrence transaction. -/
def jobSuccessor : Job :=
  { jobNoType with
    jobType := "email", payload := "payload-succ",
    scheduledFor := "2026-01-02T00:00:00Z", recurrent := true, interval := "24h0m0s" }

/-- Fixture: a single-row store holding only the failed job. -/
def stFailedOnly : Store := { rows := [rowFailed], nextId := 3 }

end Crawshaw
namespace Crawshaw

theorem strLe_empty (s : String) : strLe "" s = true := rfl

theorem claimUpdate_id (now : String) (r : JobRow) : (claimUpdate now r).id = r.id := rfl

theorem eligibleRow_claimUpdate (now now2 : String) (r : JobRow) :
    eligibleRow now (claimUpdate now2 r) = false := by
  simp [eligibleRow, claimUpdate]

theorem rowToJob_ok {r : JobRow} {j : Job} (h : rowToJob r = .ok j) : j = jobOfRow r := by
  unfold rowToJob at h
  simp only [timeParse, durationParse, bind, Except.bind] at h
  repeat' (split at h)
  all_goals (try split_ifs at *)
  all_goals simp_all [jobOfRow]

end Crawshaw

namespace Crawshaw

theorem scanRows_ok : ∀ {l : List JobRow} {js : List Job},
    scanRows l = .ok js → js = l.map jobOfRow := by
  intro l
  induction l with
  | nil => intro js h; simp [scanRows] at h; simp [h.symm]
  | cons r rs ih =>
    intro js h
    unfold scanRows at h
    cases hr : rowToJob r with
    | error e => simp [hr] at h
    | ok j =>
      rw [hr] at h
      cases hs : scanRows rs with
      | error e => simp [hs] at h
      | ok js' =>
        rw [hs] at h
        simp only [Except.ok.injEq] at h
        subst h
        rw [List.map_cons, ← ih hs, rowToJob_ok hr]

theorem insertById_cons_of_le {r x : JobRow} (xs : List JobRow) (h : r.id ≤ x.id) :
    insertById r (x :: xs) = r :: x :: xs := by
  simp [insertById, h]

theorem sortById_eq_of_sorted : ∀ {l : List JobRow},
    List.Chain' (· < ·) (l.map JobRow.id) → sortById l = l := by
  intro l
  induction l with
  | nil => intro _; rfl
  | cons x xs ih =>
    intro h
    rw [List.map_cons, List.chain'_cons'] at h
    rw [sortById, ih h.2]
    cases xs with
    | nil => rfl
    | cons y ys =>
      have hxy : x.id < y.id := by
        apply h.1
        rw [List.map_cons, List.head?_cons, Option.mem_def]
      exact insertById_cons_of_le _ (Nat.le_of_lt hxy)

theorem mem_insertById {x r : JobRow} : ∀ {xs : List JobRow},
    x ∈ insertById r xs ↔ x = r ∨ x ∈ xs := by
  intro xs
  induction xs with
  | nil => simp [insertById]
  | cons y ys ih =>
    rw [insertById]
    split
    · constructor
      · intro hm
        rcases List.mem_cons.mp hm with h1 | h2
        · exact Or.inl h1
        · exact Or.inr h2
      · intro hm
        rcases hm with h1 | h2
        · exact List.mem_cons.mpr (Or.inl h1)
        · exact List.mem_cons.mpr (Or.inr h2)
    · rw [List.mem_cons, ih, List.mem_cons]
      tauto

theorem mem_sortById {x : JobRow} : ∀ {l : List JobRow}, x ∈ sortById l ↔ x ∈ l := by
  intro l
  induction l with
  | nil => simp [sortById]
  | cons y ys ih => rw [sortById, mem_insertById]; simp [ih]

end Crawshaw

namespace Crawshaw

theorem filter_map_claim (P : JobRow → Bool) (g : JobRow → JobRow)
    (hg : ∀ r, P (g r) = false) :
    ∀ (l : List JobRow), l.Nodup → ∀ (n : Nat),
      (l.map fun x => if x ∈ (l.filter P).take n then g x else x).filter P
        = (l.filter P).drop n := by
  intro l
  induction l with
  | nil => intro _ n; simp
  | cons r t ih =>
    intro hnd n
    have hrt : r ∉ t := (List.nodup_cons.mp hnd).1
    have hndt : t.Nodup := (List.nodup_cons.mp hnd).2
    by_cases hp : P r = true
    · rw [List.filter_cons_of_pos hp]
      cases n with
      | zero =>
        have hmap : (List.map (fun x =>
            if x ∈ List.take 0 (r :: List.filter P t) then g x else x) (r :: t))
            = r :: t := by
          simp
        rw [hmap, List.drop_zero, List.filter_cons_of_pos hp]
      | succ k =>
        rw [List.take_succ_cons, List.drop_succ_cons, List.map_cons]
        have hhead : (if r ∈ r :: (t.filter P).take k then g r else r) = g r := by
          rw [if_pos (List.mem_cons_self r _)]
        rw [hhead]
        have htail : (t.map fun x =>
            if x ∈ r :: (t.filter P).take k then g x else x)
            = t.map fun x => if x ∈ (t.filter P).take k then g x else x := by
          apply List.map_congr_left
          intro x hx
          have hxr : x ≠ r := fun he => hrt (he ▸ hx)
          by_cases hmem : x ∈ (t.filter P).take k
          · rw [if_pos (List.mem_cons_of_mem _ hmem), if_pos hmem]
          · have hnc : x ∉ r :: (t.filter P).take k := by
              intro hc
              rcases List.mem_cons.mp hc with h1 | h2
              · exact hxr h1
              · exact hmem h2
            rw [if_neg hnc, if_neg hmem]
        rw [htail, List.filter_cons_of_neg (by rw [hg r]; exact Bool.false_ne_true)]
        exact ih hndt k
    · have hp' : P r = false := Bool.eq_false_iff.mpr hp
      rw [List.filter_cons_of_neg (by rw [hp']; exact Bool.false_ne_true)]
      rw [List.map_cons]
      have hrs : r ∉ (t.filter P).take n := by
        intro hc
        have := List.mem_filter.mp (List.mem_of_mem_take hc)
        rw [hp'] at this
        exact Bool.false_ne_true this.2
      rw [if_neg hrs]
      rw [List.filter_cons_of_neg (by rw [hp']; exact Bool.false_ne_true)]
      exact ih hndt n

end Crawshaw

namespace Crawshaw

theorem idsSortedLt_iff_chain' : ∀ {l : List Nat},
    idsSortedLt l = true ↔ List.Chain' (· < ·) l := by
  intro l
  match l with
  | [] => simp [idsSortedLt]
  | [a] => simp [idsSortedLt]
  | a :: b :: rest =>
    rw [idsSortedLt, List.chain'_cons, Bool.and_eq_true, decide_eq_true_iff,
      idsSortedLt_iff_chain' (l := b :: rest)]

theorem pairwise_of_wf {st : Store} (h : st.WF) :
    (st.rows.map JobRow.id).Pairwise (· < ·) :=
  List.chain'_iff_pairwise.mp (idsSortedLt_iff_chain'.mp h.1)

theorem nodup_ids_of_wf {st : Store} (h : st.WF) : (st.rows.map JobRow.id).Nodup :=
  (pairwise_of_wf h).imp Nat.ne_of_lt

theorem nodup_rows_of_wf {st : Store} (h : st.WF) : st.rows.Nodup :=
  (nodup_ids_of_wf h).of_map _

theorem elig_sorted {st : Store} (h : st.WF) (now : String) :
    List.Chain' (· < ·) ((st.rows.filter (eligibleRow now)).map JobRow.id) :=
  List.chain'_iff_pairwise.mpr
    (List.Pairwise.sublist ((st.rows.filter_sublist).map JobRow.id) (pairwise_of_wf h))

theorem claimSelected_eq {st : Store} (hwf : st.WF) (now : String) (L : Nat) :
    claimSelected (L : Int) now st = (st.rows.filter (eligibleRow now)).take L := by
  unfold claimSelected takeLimit
  rw [sortById_eq_of_sorted (elig_sorted hwf now),
    if_neg (Int.not_lt.mpr (Int.natCast_nonneg L))]
  norm_num

theorem contains_id_iff {l s : List JobRow} (hn : (l.map JobRow.id).Nodup)
    (hs : s ⊆ l) {r : JobRow} (hr : r ∈ l) :
    ((s.map JobRow.id).contains r.id = true) ↔ r ∈ s := by
  rw [List.elem_iff]
  constructor
  · intro h
    rcases List.mem_map.mp h with ⟨r', hr', hid⟩
    have := List.inj_on_of_nodup_map hn (hs hr') hr hid
    exact this ▸ hr'
  · intro h
    exact List.mem_map.mpr ⟨r, h, rfl⟩

end Crawshaw

namespace Crawshaw

theorem claimSelected_subset (limit : Int) (now : String) (st : Store) :
    ∀ r ∈ claimSelected limit now st, r ∈ st.rows := by
  intro r hr
  unfold claimSelected takeLimit at hr
  split at hr
  · exact List.mem_filter.mp (mem_sortById.mp hr) |>.1
  · have := List.mem_of_mem_take hr
    exact (List.mem_filter.mp (mem_sortById.mp this)).1

theorem claimSelected_eligible (limit : Int) (now : String) (st : Store) :
    ∀ r ∈ claimSelected limit now st, eligibleRow now r = true := by
  intro r hr
  unfold claimSelected takeLimit at hr
  split at hr
  · exact (List.mem_filter.mp (mem_sortById.mp hr)).2
  · exact (List.mem_filter.mp (mem_sortById.mp (List.mem_of_mem_take hr))).2

theorem claimStatement_rows {st : Store} (hwf : st.WF) (now : String) (L : Nat) :
    (claimStatement (L : Int) now st).1.rows
      = st.rows.map (fun r =>
          if r ∈ (st.rows.filter (eligibleRow now)).take L then claimUpdate now r else r) := by
  unfold claimStatement
  simp only
  apply List.map_congr_left
  intro r hr
  have hsub : claimSelected (L : Int) now st ⊆ st.rows := fun x hx =>
    claimSelected_subset _ _ _ x hx
  have hbr := contains_id_iff (nodup_ids_of_wf hwf) hsub hr
    (s := claimSelected (L : Int) now st)
  by_cases hmem : r ∈ claimSelected (L : Int) now st
  · rw [if_pos (hbr.mpr hmem), if_pos (by rwa [claimSelected_eq hwf] at hmem)]
  · rw [if_neg (fun hc => hmem (hbr.mp hc)),
      if_neg (by rwa [claimSelected_eq hwf] at hmem)]

theorem elig_after_claim {st : Store} (hwf : st.WF) (now : String) (L : Nat) :
    ((claimStatement (L : Int) now st).1.rows).filter (eligibleRow now)
      = (st.rows.filter (eligibleRow now)).drop L := by
  rw [claimStatement_rows hwf]
  exact filter_map_claim (eligibleRow now) (claimUpdate now)
    (fun r => eligibleRow_claimUpdate now now r) st.rows (nodup_rows_of_wf hwf) L

theorem claimStatement_ids (limit : Int) (now : String) (st : Store) :
    ((claimStatement limit now st).1.rows).map JobRow.id = st.rows.map JobRow.id := by
  unfold claimStatement
  simp only
  rw [List.map_map]
  apply List.map_congr_left
  intro r hr
  simp only [Function.comp_apply]
  by_cases h : ((claimSelected limit now st).map JobRow.id).contains r.id
  · rw [if_pos h]; rfl
  · rw [if_neg h]

theorem claimStatement_nextId (limit : Int) (now : String) (st : Store) :
    (claimStatement limit now st).1.nextId = st.nextId := rfl

theorem claimStatement_wf {st : Store} (hwf : st.WF) (limit : Int) (now : String) :
    ((claimStatement limit now st).1).WF := by
  constructor
  · rw [claimStatement_ids]; exact hwf.1
  · intro r hr
    unfold claimStatement at hr
    simp only at hr
    rcases List.mem_map.mp hr with ⟨r0, hr0, hmap⟩
    rw [claimStatement_nextId]
    have : r.id = r0.id := by
      subst hmap
      by_cases h : ((claimSelected limit now st).map JobRow.id).contains r0.id
      · rw [if_pos h]; rfl
      · rw [if_neg h]
    rw [this]
    exact hwf.2 r0 hr0

theorem claimStatement_snd (limit : Int) (now : String) (st : Store) :
    (claimStatement limit now st).2 = (claimSelected limit now st).map (claimUpdate now) := rfl

theorem claim_fst (limit : Int) (now : String) (st : Store) :
    (claim limit now st).1 = (claimStatement limit now st).1 := by
  unfold claim
  cases h2 : scanRows (claimStatement limit now st).2 <;> simp [h2]

theorem claim_ok_jobs {limit : Int} {now : String} {st : Store} {jobs : List Job}
    (h : (claim limit now st).2 = .ok jobs) :
    jobs = ((claimSelected limit now st).map (claimUpdate now)).map jobOfRow := by
  unfold claim at h
  rcases hcs : claimStatement limit now st with ⟨st2, ret⟩
  rw [hcs] at h
  dsimp only at h
  have hret : ret = (claimSelected limit now st).map (claimUpdate now) := by
    rw [← claimStatement_snd, hcs]
  cases h2 : scanRows ret with
  | error e => rw [h2] at h; simp at h
  | ok js =>
    rw [h2] at h
    dsimp only at h
    simp only [Except.ok.injEq] at h
    rw [← h, scanRows_ok h2, hret]

end Crawshaw

namespace Crawshaw

theorem jobs_ids (sel : List JobRow) (now : String) :
    (((sel.map (claimUpdate now)).map jobOfRow).map Job.id) = sel.map JobRow.id := by
  rw [List.map_map, List.map_map]
  apply List.map_congr_left
  intro r _
  rfl

theorem eligibleRow_iff {now : String} {r : JobRow} :
    eligibleRow now r = true ↔
      ((r.status = Status.pending ∨ r.status = Status.failed) ∧
        strLe r.scheduled_for now = true) := by
  simp [eligibleRow]

theorem elig_ids_nodup {st : Store} (hwf : st.WF) (now : String) :
    ((st.rows.filter (eligibleRow now)).map JobRow.id).Nodup :=
  (List.chain'_iff_pairwise.mp (elig_sorted hwf now)).imp Nat.ne_of_lt

/-- C1: two Claim calls in one claim cycle (the serialization SQLite gives
two concurrent claim statements) return job-id sets that are disjoint and
of total size min(N, L1+L2) over N eligible jobs. -/
theorem claim_concurrent_disjoint_union (st : Store) (now : String) (L1 L2 : Nat)
    (jobs1 jobs2 : List Job) (hwf : st.WF)
    (h1 : (claim (L1 : Int) now st).2 = .ok jobs1)
    (h2 : (claim (L2 : Int) now ((claim (L1 : Int) now st).1)).2 = .ok jobs2) :
    ((jobs1 ++ jobs2).map Job.id).Nodup ∧
    (jobs1 ++ jobs2).length
      = min (st.rows.filter (eligibleRow now)).length (L1 + L2) := by
  have hwf1 : ((claim (L1 : Int) now st).1).WF := by
    rw [claim_fst]; exact claimStatement_wf hwf _ _
  have hj1 := claim_ok_jobs h1
  have hj2 := claim_ok_jobs h2
  rw [claimSelected_eq hwf] at hj1
  rw [claimSelected_eq hwf1] at hj2
  have helig1 : ((claim (L1 : Int) now st).1).rows.filter (eligibleRow now)
      = (st.rows.filter (eligibleRow now)).drop L1 := by
    rw [claim_fst]; exact elig_after_claim hwf now L1
  rw [helig1] at hj2
  constructor
  · rw [List.map_append, hj1, hj2, jobs_ids, jobs_ids, ← List.map_append,
      ← List.take_add, List.map_take]
    exact (elig_ids_nodup hwf now).sublist (List.take_sublist _ _)
  · rw [List.length_append, hj1, hj2]
    simp only [List.length_map, List.length_take, List.length_drop]
    omega

/-- C3: every job Claim returns comes from a row that satisfied the
eligibility predicate; no returned job is scheduled in the future; empty
scheduled_for is immediately eligible; and when the limit covers all
eligible rows, every eligible row is claimed. -/
theorem claim_eligibility (st : Store) (now : String) (limit : Int) (jobs : List Job)
    (hwf : st.WF) (h : (claim limit now st).2 = .ok jobs) :
    (∀ j ∈ jobs, ∃ r ∈ st.rows, r.id = j.id ∧
        (r.status = Status.pending ∨ r.status = Status.failed) ∧
        strLe r.scheduled_for now = true) ∧
    (∀ j ∈ jobs, strLe j.scheduledFor now = true) ∧
    (∀ r ∈ st.rows, r.scheduled_for = "" →
        (r.status = Status.pending ∨ r.status = Status.failed) →
        eligibleRow now r = true) ∧
    (((st.rows.filter (eligibleRow now)).length : Int) ≤ limit →
        ∀ r ∈ st.rows, eligibleRow now r = true → r.id ∈ jobs.map Job.id) := by
  have hjobs := claim_ok_jobs h
  refine ⟨?_, ?_, ?_, ?_⟩
  · intro j hj
    rw [hjobs] at hj
    rcases List.mem_map.mp hj with ⟨u, hu, hju⟩
    rcases List.mem_map.mp hu with ⟨r, hrsel, hur⟩
    have hre := (eligibleRow_iff).mp (claimSelected_eligible limit now st r hrsel)
    refine ⟨r, claimSelected_subset limit now st r hrsel, ?_, hre.1, hre.2⟩
    rw [← hju, ← hur]
    rfl
  · intro j hj
    rw [hjobs] at hj
    rcases List.mem_map.mp hj with ⟨u, hu, hju⟩
    rcases List.mem_map.mp hu with ⟨r, hrsel, hur⟩
    have hre := (eligibleRow_iff).mp (claimSelected_eligible limit now st r hrsel)
    have hsched : j.scheduledFor = r.scheduled_for := by
      rw [← hju, ← hur]; rfl
    rw [hsched]
    exact hre.2
  · intro r _ hsf hstat
    refine eligibleRow_iff.mpr ⟨hstat, ?_⟩
    rw [hsf]
    exact strLe_empty now
  · intro hlim r hr hre
    have hN : (0 : Int) ≤ ((st.rows.filter (eligibleRow now)).length : Int) :=
      Int.natCast_nonneg _
    have hlim0 : (0 : Int) ≤ limit := le_trans hN hlim
    have hall : claimSelected limit now st = st.rows.filter (eligibleRow now) := by
      unfold claimSelected takeLimit
      rw [sortById_eq_of_sorted (elig_sorted hwf now), if_neg (by omega : ¬ limit < 0)]
      apply List.take_of_length_le
      omega
    have hmem : r ∈ claimSelected limit now st := by
      rw [hall]
      exact List.mem_filter.mpr ⟨hr, hre⟩
    rw [hjobs, jobs_ids]
    exact List.mem_map.mpr ⟨r, hmem, rfl⟩

end Crawshaw

namespace Crawshaw

theorem insertStatement_eq (job : Job) (now : String) (st : Store) :
    insertStatement job now st
      = if st.rows.any (fun r => r.payload = job.payload) then
          .error (.sqlite "SQLITE_CONSTRAINT_UNIQUE")
        else
          .ok { rows := st.rows ++
                  [insertedRow job (if job.scheduledFor = "" then "" else job.scheduledFor) now st],
                nextId := st.nextId + 1 } := rfl

theorem markRecurrentCompleted_eq (cid : Nat) (newJob : Job) (now : String) (st : Store) :
    markRecurrentCompleted cid newJob now st
      = match insertStatement newJob now (completeUpdate cid now st) with
        | .error e => (st, .error (.wrap "failed to re-insert job in transaction" e))
        | .ok st2 => (st2, .ok ()) := by
  unfold markRecurrentCompleted Conn.beginTx Conn.exec Conn.execE Conn.rollbackTx Conn.commitTx
  dsimp only
  cases h : insertStatement newJob now (completeUpdate cid now st) <;> simp [h]

theorem insertJob_ok {job : Job} {now : String} {st st2 : Store}
    (h : insertJob job now st = .ok st2) :
    st2.rows = st.rows ++
        [insertedRow job (if job.scheduledFor = "" then "" else job.scheduledFor) now st] ∧
      st2.nextId = st.nextId + 1 ∧
      (st.rows.any (fun r => r.payload = job.payload)) = false := by
  unfold insertJob at h
  cases hs : insertStatement job now st with
  | error e => rw [hs] at h; simp at h
  | ok st3 =>
    rw [hs] at h
    simp only [Except.ok.injEq] at h
    subst h
    rw [insertStatement_eq] at hs
    split at hs
    next hany => simp at hs
    next hany =>
      simp only [Except.ok.injEq] at hs
      rw [← hs]
      exact ⟨rfl, rfl, Bool.eq_false_iff.mpr hany⟩

theorem claim_mem_updated {st : Store} (hwf : st.WF) {limit : Int} {now : String}
    {r : JobRow} (hsel : r ∈ claimSelected limit now st) :
    claimUpdate now r ∈ (claim limit now st).1.rows := by
  rw [claim_fst]
  unfold claimStatement
  dsimp only
  have hr : r ∈ st.rows := claimSelected_subset limit now st r hsel
  have hbr := contains_id_iff (nodup_ids_of_wf hwf)
    (fun x hx => claimSelected_subset limit now st x hx) hr
    (s := claimSelected limit now st)
  have hmem := List.mem_map_of_mem
    (fun x => if ((claimSelected limit now st).map JobRow.id).contains x.id
      then claimUpdate now x else x) hr
  dsimp only at hmem
  rw [if_pos (hbr.mpr hsel)] at hmem
  exact hmem

/-- C4: a claimed job's attempts, both in the returned snapshot and in the
store, is exactly one more than before, with status processing; every
other operation leaves every existing row's attempts unchanged, and claim
never decreases attempts. -/
theorem claim_attempts (st : Store) (now : String) (limit : Int) (jobs : List Job)
    (hwf : st.WF) (h : (claim limit now st).2 = .ok jobs) :
    (∀ j ∈ jobs, ∃ r ∈ st.rows, r.id = j.id ∧ j.attempts = r.attempts + 1 ∧
        j.status = Status.processing ∧ claimUpdate now r ∈ (claim limit now st).1.rows ∧
        (claimUpdate now r).attempts = r.attempts + 1) ∧
    (∀ r' ∈ (claim limit now st).1.rows, ∃ r ∈ st.rows, r'.id = r.id ∧
        r.attempts ≤ r'.attempts ∧
        (r'.attempts = r.attempts ∨ r'.attempts = r.attempts + 1)) ∧
    (∀ (jobID : Nat) (now2 : String), ∀ r ∈ st.rows,
        ∃ r' ∈ (markCompleted jobID now2 st).rows, r'.id = r.id ∧ r'.attempts = r.attempts) ∧
    (∀ (jobID : Nat) (msg now2 : String), ∀ r ∈ st.rows,
        ∃ r' ∈ (markFailed jobID msg now2 st).rows, r'.id = r.id ∧ r'.attempts = r.attempts) ∧
    (∀ (job : Job) (now2 : String) (st2 : Store), insertJob job now2 st = .ok st2 →
        ∀ r ∈ st.rows, r ∈ st2.rows) ∧
    (∀ (cid : Nat) (newJob : Job) (now2 : String), ∀ r ∈ st.rows,
        ∃ r' ∈ (markRecurrentCompleted cid newJob now2 st).1.rows,
          r'.id = r.id ∧ r'.attempts = r.attempts) := by
  have hjobs := claim_ok_jobs h
  refine ⟨?_, ?_, ?_, ?_, ?_, ?_⟩
  · intro j hj
    rw [hjobs] at hj
    rcases List.mem_map.mp hj with ⟨u, hu, hju⟩
    rcases List.mem_map.mp hu with ⟨r, hrsel, hur⟩
    refine ⟨r, claimSelected_subset limit now st r hrsel, ?_, ?_, ?_,
      claim_mem_updated hwf hrsel, rfl⟩
    · rw [← hju, ← hur]; rfl
    · rw [← hju, ← hur]; rfl
    · rw [← hju, ← hur]; rfl
  · intro r' hr'
    rw [claim_fst] at hr'
    unfold claimStatement at hr'
    simp only at hr'
    rcases List.mem_map.mp hr' with ⟨r, hr, hmap⟩
    refine ⟨r, hr, ?_⟩
    by_cases hc : ((claimSelected limit now st).map JobRow.id).contains r.id
    · rw [if_pos hc] at hmap
      subst hmap
      refine ⟨rfl, by simp only [claimUpdate]; omega, Or.inr rfl⟩
    · rw [if_neg hc] at hmap
      subst hmap
      exact ⟨rfl, le_refl _, Or.inl rfl⟩
  · intro jobID now2 r hr
    refine ⟨if r.id = jobID then
        { r with status := .completed, completed_at := now2, updated_at := now2,
                 locked_at := "", last_error := "" } else r, ?_, ?_⟩
    · exact List.mem_map_of_mem _ hr
    · by_cases hc : r.id = jobID
      · rw [if_pos hc]; exact ⟨rfl, rfl⟩
      · rw [if_neg hc]; exact ⟨rfl, rfl⟩
  · intro jobID msg now2 r hr
    refine ⟨if r.id = jobID then
        { r with status := .failed, updated_at := now2, locked_at := "",
                 last_error := msg } else r, ?_, ?_⟩
    · exact List.mem_map_of_mem _ hr
    · by_cases hc : r.id = jobID
      · rw [if_pos hc]; exact ⟨rfl, rfl⟩
      · rw [if_neg hc]; exact ⟨rfl, rfl⟩
  · intro job now2 st2 hins r hr
    rcases insertJob_ok hins with ⟨hrows, _, _⟩
    rw [hrows]
    exact List.mem_append_left _ hr
  · intro cid newJob now2 r hr
    rw [markRecurrentCompleted_eq]
    cases hins : insertStatement newJob now2 (completeUpdate cid now2 st) with
    | error e => exact ⟨r, hr, rfl, rfl⟩
    | ok st2 =>
      rw [insertStatement_eq] at hins
      split at hins
      · simp at hins
      · simp only [Except.ok.injEq] at hins
        rw [← hins]
        refine ⟨if r.id = cid then
            { r with status := .completed, completed_at := now2, updated_at := now2,
                     locked_at := "", last_error := "" } else r, ?_, ?_⟩
        · exact List.mem_append_left _ (List.mem_map_of_mem _ hr)
        · by_cases hc : r.id = cid
          · rw [if_pos hc]; exact ⟨rfl, rfl⟩
          · rw [if_neg hc]; exact ⟨rfl, rfl⟩

end Crawshaw

namespace Crawshaw

theorem claim_empty {st : Store} {now : String}
    (hempty : st.rows.filter (eligibleRow now) = []) (limit : Int) :
    (claim limit now st).2 = .ok [] := by
  have hsel : claimSelected limit now st = [] := by
    unfold claimSelected
    rw [hempty]
    unfold sortById takeLimit
    split <;> simp
  unfold claim
  rcases hcs : claimStatement limit now st with ⟨st2, ret⟩
  have hret : ret = [] := by
    have hsnd := claimStatement_snd limit now st
    rw [hcs] at hsnd
    dsimp only at hsnd
    rw [hsnd, hsel]
    rfl
  dsimp only
  rw [hret]
  rfl

/-- C5 (amended): for a nonnegative limit, Claim returns at most limit
jobs, in strictly ascending id order; with no eligible rows it returns the
empty list and no error for every limit. -/
theorem claim_limit_order_empty (st : Store) (now : String) (L : Nat) (jobs : List Job)
    (hwf : st.WF) (h : (claim (L : Int) now st).2 = .ok jobs) :
    jobs.length ≤ L ∧
    (jobs.map Job.id).Pairwise (· < ·) ∧
    (st.rows.filter (eligibleRow now) = [] →
      ∀ limit : Int, (claim limit now st).2 = .ok []) := by
  have hjobs := claim_ok_jobs h
  rw [claimSelected_eq hwf] at hjobs
  refine ⟨?_, ?_, fun hempty limit => claim_empty hempty limit⟩
  · rw [hjobs]
    simp only [List.length_map, List.length_take]
    omega
  · rw [hjobs, jobs_ids, List.map_take]
    exact List.Pairwise.sublist (List.take_sublist _ _)
      (List.Pairwise.sublist ((st.rows.filter_sublist).map JobRow.id) (pairwise_of_wf hwf))

/-- C2: the recurrence transaction is atomic: if the successor insert
fails the visible store is exactly the pre-call store (completion rolled
back, no successor row); on success the completion update is applied and
the successor row exists. -/
theorem markRecurrentCompleted_atomic (st : Store) (cid : Nat) (newJob : Job) (now : String) :
    (∀ e, (markRecurrentCompleted cid newJob now st).2 = .error e →
        (markRecurrentCompleted cid newJob now st).1 = st) ∧
    ((markRecurrentCompleted cid newJob now st).2 = .ok () →
        (∀ r ∈ st.rows, r.id = cid →
            { r with status := Status.completed, completed_at := now, updated_at := now,
                     locked_at := "", last_error := "" }
              ∈ (markRecurrentCompleted cid newJob now st).1.rows) ∧
        (∃ r' ∈ (markRecurrentCompleted cid newJob now st).1.rows,
            r'.id = st.nextId ∧ r'.job_type = newJob.jobType ∧
            r'.payload = newJob.payload ∧ r'.status = Status.pending ∧
            r'.attempts = newJob.attempts)) := by
  rw [markRecurrentCompleted_eq]
  cases hins : insertStatement newJob now (completeUpdate cid now st) with
  | error e =>
    constructor
    · intro e' _; rfl
    · intro hok; simp at hok
  | ok st2 =>
    constructor
    · intro e' he'; simp at he'
    · intro _
      rw [insertStatement_eq] at hins
      split at hins
      next => simp at hins
      next hany =>
        simp only [Except.ok.injEq] at hins
        rw [← hins]
        constructor
        · intro r hr hid
          apply List.mem_append_left
          have hmem := List.mem_map_of_mem
            (fun x => if x.id = cid then
                { x with status := Status.completed, completed_at := now,
                         updated_at := now, locked_at := "", last_error := "" }
              else x) hr
          dsimp only at hmem
          rw [if_pos hid] at hmem
          exact hmem
        · exact ⟨insertedRow newJob
              (if newJob.scheduledFor = "" then "" else newJob.scheduledFor) now
              (completeUpdate cid now st),
            List.mem_append_right _ (by simp),
            rfl, rfl, rfl, rfl, rfl⟩

end Crawshaw

namespace Crawshaw

theorem claim_row_frame (limit : Int) (now : String) (st : Store) :
    ∀ r' ∈ (claim limit now st).1.rows, ∃ r ∈ st.rows, r'.id = r.id ∧
      r'.last_error = r.last_error ∧ r'.locked_by = r.locked_by ∧
      (r' = r ∨ r' = claimUpdate now r) := by
  intro r' hr'
  rw [claim_fst] at hr'
  unfold claimStatement at hr'
  dsimp only at hr'
  rcases List.mem_map.mp hr' with ⟨r, hr, hmap⟩
  refine ⟨r, hr, ?_⟩
  by_cases hc : ((claimSelected limit now st).map JobRow.id).contains r.id
  · rw [if_pos hc] at hmap
    subst hmap
    exact ⟨rfl, rfl, rfl, Or.inr rfl⟩
  · rw [if_neg hc] at hmap
    subst hmap
    exact ⟨rfl, rfl, rfl, Or.inl rfl⟩

/-- C8 (amended): last_error is cleared by MarkCompleted; Claim does not
touch it — a claimed job's snapshot and stored row keep the previous
last_error value. -/
theorem lastError_complete_vs_claim (st : Store) :
    (∀ (jobID : Nat) (now : String), ∀ r ∈ st.rows, r.id = jobID →
        ∃ r' ∈ (markCompleted jobID now st).rows, r'.id = jobID ∧ r'.last_error = "") ∧
    (∀ (limit : Int) (now : String) (jobs : List Job),
        (claim limit now st).2 = .ok jobs →
        ∀ j ∈ jobs, ∃ r ∈ st.rows, r.id = j.id ∧ j.lastError = r.last_error) ∧
    (∀ (limit : Int) (now : String), ∀ r' ∈ (claim limit now st).1.rows,
        ∃ r ∈ st.rows, r'.id = r.id ∧ r'.last_error = r.last_error) := by
  refine ⟨?_, ?_, ?_⟩
  · intro jobID now r hr hid
    refine ⟨{ r with status := Status.completed, completed_at := now, updated_at := now,
                     locked_at := "", last_error := "" }, ?_, hid ▸ rfl, rfl⟩
    have hmem := List.mem_map_of_mem
      (fun x => if x.id = jobID then
          { x with status := Status.completed, completed_at := now, updated_at := now,
                   locked_at := "", last_error := "" }
        else x) hr
    dsimp only at hmem
    rw [if_pos hid] at hmem
    exact hmem
  · intro limit now jobs h j hj
    rw [claim_ok_jobs h] at hj
    rcases List.mem_map.mp hj with ⟨u, hu, hju⟩
    rcases List.mem_map.mp hu with ⟨r, hrsel, hur⟩
    refine ⟨r, claimSelected_subset limit now st r hrsel, ?_, ?_⟩
    · rw [← hju, ← hur]; rfl
    · rw [← hju, ← hur]; rfl
  · intro limit now r' hr'
    rcases claim_row_frame limit now st r' hr' with ⟨r, hr, hid, hle, _, _⟩
    exact ⟨r, hr, hid, hle⟩

/-- C9 (amended): Claim stamps locked_at (never locked_by, which no queue
operation writes); MarkCompleted and MarkFailed clear locked_at and leave
locked_by untouched. -/
theorem lock_fields_behavior (st : Store) :
    (∀ (limit : Int) (now : String) (jobs : List Job),
        (claim limit now st).2 = .ok jobs →
        ∀ j ∈ jobs, j.lockedAt = now ∧ j.status = Status.processing ∧
          ∃ r ∈ st.rows, r.id = j.id ∧ j.lockedBy = r.locked_by) ∧
    (∀ (limit : Int) (now : String), ∀ r' ∈ (claim limit now st).1.rows,
        ∃ r ∈ st.rows, r'.id = r.id ∧ r'.locked_by = r.locked_by) ∧
    (∀ (jobID : Nat) (now : String), ∀ r ∈ st.rows, r.id = jobID →
        ∃ r' ∈ (markCompleted jobID now st).rows, r'.id = jobID ∧
          r'.locked_at = "" ∧ r'.locked_by = r.locked_by) ∧
    (∀ (jobID : Nat) (msg now : String), ∀ r ∈ st.rows, r.id = jobID →
        ∃ r' ∈ (markFailed jobID msg now st).rows, r'.id = jobID ∧
          r'.locked_at = "" ∧ r'.locked_by = r.locked_by) := by
  refine ⟨?_, ?_, ?_, ?_⟩
  · intro limit now jobs h j hj
    rw [claim_ok_jobs h] at hj
    rcases List.mem_map.mp hj with ⟨u, hu, hju⟩
    rcases List.mem_map.mp hu with ⟨r, hrsel, hur⟩
    refine ⟨by rw [← hju, ← hur]; rfl, by rw [← hju, ← hur]; rfl,
      r, claimSelected_subset limit now st r hrsel, ?_, ?_⟩
    · rw [← hju, ← hur]; rfl
    · rw [← hju, ← hur]; rfl
  · intro limit now r' hr'
    rcases claim_row_frame limit now st r' hr' with ⟨r, hr, hid, _, hlb, _⟩
    exact ⟨r, hr, hid, hlb⟩
  · intro jobID now r hr hid
    refine ⟨{ r with status := Status.completed, completed_at := now, updated_at := now,
                     locked_at := "", last_error := "" }, ?_, hid ▸ rfl, rfl, rfl⟩
    have hmem := List.mem_map_of_mem
      (fun x => if x.id = jobID then
          { x with status := Status.completed, completed_at := now, updated_at := now,
                   locked_at := "", last_error := "" }
        else x) hr
    dsimp only at hmem
    rw [if_pos hid] at hmem
    exact hmem
  · intro jobID msg now r hr hid
    refine ⟨{ r with status := Status.failed, updated_at := now,
                     locked_at := "", last_error := msg }, ?_, hid ▸ rfl, rfl, rfl⟩
    have hmem := List.mem_map_of_mem
      (fun x => if x.id = jobID then
          { x with status := Status.failed, updated_at := now,
                   locked_at := "", last_error := msg }
        else x) hr
    dsimp only at hmem
    rw [if_pos hid] at hmem
    exact hmem

/-- C10: MarkFailed writes only status, updated_at, locked_at and
last_error — completed_at (and every other column) is untouched — so
MarkCompleted followed by MarkFailed leaves status failed with the
completion timestamp still present. -/
theorem markFailed_preserves_completed_at (st : Store) :
    (∀ (jobID : Nat) (msg now : String), ∀ r ∈ st.rows,
        ∃ r' ∈ (markFailed jobID msg now st).rows, r'.id = r.id ∧
          r'.completed_at = r.completed_at ∧ r'.job_type = r.job_type ∧
          r'.payload = r.payload ∧ r'.payload_extra = r.payload_extra ∧
          r'.attempts = r.attempts ∧ r'.max_attempts = r.max_attempts ∧
          r'.created_at = r.created_at ∧ r'.scheduled_for = r.scheduled_for ∧
          r'.locked_by = r.locked_by ∧ r'.recurrent = r.recurrent ∧
          r'.interval = r.interval ∧ (r.id ≠ jobID → r' = r)) ∧
    (∀ (jobID : Nat) (now1 msg now2 : String), ∀ r ∈ st.rows, r.id = jobID →
        ∃ r' ∈ (markFailed jobID msg now2 (markCompleted jobID now1 st)).rows,
          r'.id = jobID ∧ r'.status = Status.failed ∧ r'.completed_at = now1 ∧
          r'.last_error = msg) := by
  constructor
  · intro jobID msg now r hr
    refine ⟨if r.id = jobID then
        { r with status := Status.failed, updated_at := now, locked_at := "",
                 last_error := msg } else r, List.mem_map_of_mem _ hr, ?_⟩
    by_cases hc : r.id = jobID
    · rw [if_pos hc]
      exact ⟨rfl, rfl, rfl, rfl, rfl, rfl, rfl, rfl, rfl, rfl, rfl, rfl,
        fun hne => absurd hc hne⟩
    · rw [if_neg hc]
      exact ⟨rfl, rfl, rfl, rfl, rfl, rfl, rfl, rfl, rfl, rfl, rfl, rfl,
        fun _ => rfl⟩
  · intro jobID now1 msg now2 r hr hid
    have hmem1 := List.mem_map_of_mem
      (fun x => if x.id = jobID then
          { x with status := Status.completed, completed_at := now1, updated_at := now1,
                   locked_at := "", last_error := "" }
        else x) hr
    dsimp only at hmem1
    rw [if_pos hid] at hmem1
    have hmem2 := List.mem_map_of_mem
      (fun x => if x.id = jobID then
          { x with status := Status.failed, updated_at := now2,
                   locked_at := "", last_error := msg }
        else x) hmem1
    dsimp only at hmem2
    rw [if_pos hid] at hmem2
    exact ⟨_, hmem2, hid ▸ rfl, rfl, rfl, rfl⟩

end Crawshaw

namespace Crawshaw

/-- C6 (amended): InsertJob performs no validation — a job with empty
job_type or empty payload is executed against the store; absent a
uniqueness conflict the statement succeeds and the row is created (no
ValidationError exists in this code). -/
theorem insertJob_no_validation (job : Job) (now : String) (st : Store)
    (hnodup : (st.rows.any (fun r => r.payload = job.payload)) = false) :
    ∃ st2, insertJob job now st = .ok st2 ∧
      st2.rows.length = st.rows.length + 1 ∧
      ∃ r ∈ st2.rows, r.id = st.nextId ∧ r.job_type = job.jobType ∧
        r.payload = job.payload ∧ r.status = Status.pending := by
  unfold insertJob
  rw [insertStatement_eq,
    if_neg (fun hc => Bool.false_ne_true (hnodup ▸ hc))]
  exact ⟨_, rfl, by simp,
    insertedRow job (if job.scheduledFor = "" then "" else job.scheduledFor) now st,
    by simp, rfl, rfl, rfl, rfl⟩

/-- C7 (amended): a payload-uniqueness violation makes InsertJob return
the raw driver constraint error inside the same generic wrapper used for
every storage failure — no dedicated duplicate-job error value is
produced. -/
theorem insertJob_duplicate_wrapped (job : Job) (now : String) (st : Store)
    (hdup : (st.rows.any (fun r => r.payload = job.payload)) = true) :
    insertJob job now st
        = .error (.wrap "queue insert failed" (.sqlite "SQLITE_CONSTRAINT_UNIQUE")) ∧
    insertJob job now st ≠ .error GoError.errConstraintUnique ∧
    (∀ (job2 : Job) (now2 : String) (st2 : Store) (e : GoError),
        insertJob job2 now2 st2 = .error e →
        ∃ inner, e = .wrap "queue insert failed" inner) := by
  have hmain : insertJob job now st
      = .error (.wrap "queue insert failed" (.sqlite "SQLITE_CONSTRAINT_UNIQUE")) := by
    unfold insertJob
    rw [insertStatement_eq, if_pos hdup]
  refine ⟨hmain, ?_, ?_⟩
  · rw [hmain]
    intro hc
    simp at hc
  · intro job2 now2 st2 e h
    unfold insertJob at h
    cases hs : insertStatement job2 now2 st2 with
    | error e' =>
      rw [hs] at h
      simp only [Except.error.injEq] at h
      exact ⟨e', h.symm⟩
    | ok st3 => rw [hs] at h; simp at h

end Crawshaw



namespace Crawshaw

/-- C5 counterexample: SQLite places no bound on a negative LIMIT, so
Claim(-1) on a store with one eligible job returns one job, refuting
"at most limit jobs" for every limit. -/
theorem claim_negative_limit_cex :
    (claim (-1) now0 { rows := [rowPending], nextId := 2 }).2
        = .ok [jobOfRow (claimUpdate now0 rowPending)] ∧
    ¬ (([jobOfRow (claimUpdate now0 rowPending)].length : Int) ≤ -1) :=
  ⟨rfl, by decide⟩

/-- C6 counterexample: inserting a job with empty job_type succeeds — the
INSERT is executed, a row is created, and no error (in particular no
ValidationError) is returned. -/
theorem insertJob_no_validation_cex :
    insertJob jobNoType now0 stPair
      = .ok { rows := stPair.rows ++ [insertedRow jobNoType "" now0 stPair],
              nextId := 4 } ∧
    (insertedRow jobNoType "" now0 stPair).job_type = "" := by
  exact ⟨rfl, rfl⟩

/-- C7 counterexample: a duplicate-payload insert returns the driver
constraint error inside the generic wrapper, a value different from the
dedicated duplicate sentinel of the error taxonomy. -/
theorem insertJob_duplicate_cex :
    insertJob jobDupPayload now0 stPair
        = .error (.wrap "queue insert failed" (.sqlite "SQLITE_CONSTRAINT_UNIQUE")) ∧
    (GoError.wrap "queue insert failed" (.sqlite "SQLITE_CONSTRAINT_UNIQUE"))
        ≠ GoError.errConstraintUnique :=
  ⟨rfl, by decide⟩

/-- C8 counterexample: claiming a previously failed job leaves its
last_error intact ("smtp down", not cleared), both in the snapshot and in
the store. -/
theorem claim_keeps_lastError_cex :
    (claim 1 now0 stFailedOnly).2 = .ok [jobOfRow (claimUpdate now0 rowFailed)] ∧
    (jobOfRow (claimUpdate now0 rowFailed)).lastError = "smtp down" ∧
    (claim 1 now0 stFailedOnly).1.rows.map JobRow.last_error = ["smtp down"] ∧
    ("smtp down" : String) ≠ "" :=
  ⟨rfl, rfl, rfl, by decide⟩

/-- C9 counterexample: Claim never writes locked_by (the stale value
survives the fresh claim) and MarkCompleted does not clear it either. -/
theorem lockedBy_never_written_cex :
    (claim 1 now0 stFailedOnly).2 = .ok [jobOfRow (claimUpdate now0 rowFailed)] ∧
    (jobOfRow (claimUpdate now0 rowFailed)).lockedBy = "stale-worker" ∧
    (claim 1 now0 stFailedOnly).1.rows.map JobRow.locked_by = ["stale-worker"] ∧
    (markCompleted 2 nowLater (claim 1 now0 stFailedOnly).1).rows.map JobRow.locked_by
        = ["stale-worker"] ∧
    ("stale-worker" : String) ≠ "" :=
  ⟨rfl, rfl, rfl, rfl, by decide⟩

end Crawshaw

namespace Crawshaw

/-- C1 witness at the two-row store with two limit-1 claims. -/
theorem claim_concurrent_disjoint_union_witness :
    (([jobOfRow (claimUpdate now0 rowPending)] ++ [jobOfRow (claimUpdate now0 rowFailed)]).map
        Job.id).Nodup ∧
    ([jobOfRow (claimUpdate now0 rowPending)] ++ [jobOfRow (claimUpdate now0 rowFailed)]).length
        = min (stPair.rows.filter (eligibleRow now0)).length (1 + 1) :=
  claim_concurrent_disjoint_union stPair now0 1 1
    [jobOfRow (claimUpdate now0 rowPending)] [jobOfRow (claimUpdate now0 rowFailed)]
    (by decide) rfl rfl

/-- C2 witness: a successful recurrence transaction on the two-row store
creates the successor row. -/
theorem markRecurrentCompleted_atomic_witness :
    ∃ r' ∈ (markRecurrentCompleted 1 jobSuccessor now0 stPair).1.rows,
      r'.id = stPair.nextId ∧ r'.job_type = jobSuccessor.jobType ∧
      r'.payload = jobSuccessor.payload ∧ r'.status = Status.pending ∧
      r'.attempts = jobSuccessor.attempts :=
  ((markRecurrentCompleted_atomic stPair 1 jobSuccessor now0).2 rfl).2

/-- C3 witness: with limit 2 both eligible rows are claimed, in particular
the failed row's id appears among the returned ids. -/
theorem claim_eligibility_witness :
    rowFailed.id ∈ ([jobOfRow (claimUpdate now0 rowPending),
        jobOfRow (claimUpdate now0 rowFailed)].map Job.id) :=
  (claim_eligibility stPair now0 2
      [jobOfRow (claimUpdate now0 rowPending), jobOfRow (claimUpdate now0 rowFailed)]
      (by decide) rfl).2.2.2 (by decide) rowFailed (by decide) (by decide)

/-- C4 witness: the claimed failed row's snapshot carries attempts one
higher than stored. -/
theorem claim_attempts_witness :
    ∃ r ∈ stPair.rows, r.id = (jobOfRow (claimUpdate now0 rowFailed)).id ∧
      (jobOfRow (claimUpdate now0 rowFailed)).attempts = r.attempts + 1 ∧
      (jobOfRow (claimUpdate now0 rowFailed)).status = Status.processing ∧
      claimUpdate now0 r ∈ (claim 2 now0 stPair).1.rows ∧
      (claimUpdate now0 r).attempts = r.attempts + 1 :=
  (claim_attempts stPair now0 2
      [jobOfRow (claimUpdate now0 rowPending), jobOfRow (claimUpdate now0 rowFailed)]
      (by decide) rfl).1 (jobOfRow (claimUpdate now0 rowFailed)) (by decide)

/-- C5 witness (amended claim): claiming with limit 1 returns at most one
job in ascending id order. -/
theorem claim_limit_order_empty_witness :
    [jobOfRow (claimUpdate now0 rowPending)].length ≤ 1 ∧
    ([jobOfRow (claimUpdate now0 rowPending)].map Job.id).Pairwise (· < ·) ∧
    (stPair.rows.filter (eligibleRow now0) = [] →
      ∀ limit : Int, (claim limit now0 stPair).2 = .ok []) :=
  claim_limit_order_empty stPair now0 1 [jobOfRow (claimUpdate now0 rowPending)]
    (by decide) rfl

/-- C6 witness (amended claim): the empty-job_type insert goes through and
creates its row. -/
theorem insertJob_no_validation_witness :
    ∃ st2, insertJob jobNoType now0 stPair = .ok st2 ∧
      st2.rows.length = stPair.rows.length + 1 ∧
      ∃ r ∈ st2.rows, r.id = stPair.nextId ∧ r.job_type = jobNoType.jobType ∧
        r.payload = jobNoType.payload ∧ r.status = Status.pending :=
  insertJob_no_validation jobNoType now0 stPair (by decide)

/-- C7 witness (amended claim): the duplicate insert at the two-row store
yields the uniformly wrapped constraint error. -/
theorem insertJob_duplicate_wrapped_witness :
    insertJob jobDupPayload now0 stPair
        = .error (.wrap "queue insert failed" (.sqlite "SQLITE_CONSTRAINT_UNIQUE")) ∧
    insertJob jobDupPayload now0 stPair ≠ .error GoError.errConstraintUnique ∧
    (∀ (job2 : Job) (now2 : String) (st2 : Store) (e : GoError),
        insertJob job2 now2 st2 = .error e →
        ∃ inner, e = .wrap "queue insert failed" inner) :=
  insertJob_duplicate_wrapped jobDupPayload now0 stPair (by decide)

/-- C8 witness (amended claim): the claimed failed job's snapshot carries
the stored last_error. -/
theorem lastError_complete_vs_claim_witness :
    ∃ r ∈ stPair.rows, r.id = (jobOfRow (claimUpdate now0 rowFailed)).id ∧
      (jobOfRow (claimUpdate now0 rowFailed)).lastError = r.last_error :=
  (lastError_complete_vs_claim stPair).2.1 2 now0
    [jobOfRow (claimUpdate now0 rowPending), jobOfRow (claimUpdate now0 rowFailed)] rfl
    (jobOfRow (claimUpdate now0 rowFailed)) (by decide)

/-- C9 witness (amended claim): the claimed failed job's snapshot has
locked_at stamped and keeps the stored locked_by. -/
theorem lock_fields_behavior_witness :
    (jobOfRow (claimUpdate now0 rowFailed)).lockedAt = now0 ∧
    (jobOfRow (claimUpdate now0 rowFailed)).status = Status.processing ∧
    ∃ r ∈ stPair.rows, r.id = (jobOfRow (claimUpdate now0 rowFailed)).id ∧
      (jobOfRow (claimUpdate now0 rowFailed)).lockedBy = r.locked_by :=
  (lock_fields_behavior stPair).1 2 now0
    [jobOfRow (claimUpdate now0 rowPending), jobOfRow (claimUpdate now0 rowFailed)] rfl
    (jobOfRow (claimUpdate now0 rowFailed)) (by decide)

/-- C10 witness: completing then failing job 1 leaves it failed with the
completion timestamp still present. -/
theorem markFailed_preserves_completed_at_witness :
    ∃ r' ∈ (markFailed 1 "boom" nowLater (markCompleted 1 now0 stPair)).rows,
      r'.id = 1 ∧ r'.status = Status.failed ∧ r'.completed_at = now0 ∧
      r'.last_error = "boom" :=
  (markFailed_preserves_completed_at stPair).2 1 now0 "boom" nowLater rowPending
    (by decide) rfl

end Crawshaw
